import Mathlib

/-!
Verification of the ynab-mcp server core against its specification.

The Rust sources are embedded shallowly:
- `src/domain/transaction.rs`, `src/domain/money.rs`: `Transaction` (Money is an
  `i64` milliunit amount, embedded as `Int`; only comparisons are used here).
- `src/domain/transaction_query.rs`: `TransactionQuery` with its three filter
  predicates and the sort stage.  Rust's `slice::sort_by` / `sort_by_key` are
  stable sorts; a stable sort by a total preorder is extensionally unique, and
  is embedded as `List.insertionSort` with the comparator translated from the
  source.
- `src/server/jsonrpc.rs`, `src/server/mcp_protocol.rs`, `src/server/mod.rs`,
  `src/server/transport.rs`: JSON-RPC envelopes, dispatch, framing and the
  session loop (embedded further below).
-/

/-- Sorting criteria, from `transaction_query.rs` (`enum SortBy`). -/
inductive SortBy where
  | amountAscending
  | amountDescending
  | date
deriving DecidableEq, Repr

/-- A financial transaction, from `transaction.rs` (`struct Transaction`).
`amount` is the signed milliunit value carried by `Money`. -/
structure Transaction where
  id : String
  account_id : String
  category_id : String
  payee_id : Option String
  amount : Int
  date : Option String
  description : Option String
deriving DecidableEq, Repr

/-- Query builder state, from `transaction_query.rs` (`struct TransactionQuery`). -/
structure TransactionQuery where
  min_amount : Option Int
  max_amount : Option Int
  categories : List String
  search_text : Option String
  sort_by : Option SortBy
deriving DecidableEq, Repr

/-- `TransactionQuery::new` / `Default`: all filters unset. -/
def TransactionQuery.new : TransactionQuery := ⟨none, none, [], none, none⟩

/-- ASCII lower-casing of a character, as used by the text filter.
(Rust `to_lowercase` is full Unicode; the basic-latin mapping is embedded,
matching all inputs exercised by the specification's claims.) -/
def rustToLowerChar (c : Char) : Char :=
  if 65 ≤ c.toNat ∧ c.toNat ≤ 90 then Char.ofNat (c.toNat + 32) else c

/-- Lower-case a whole string, character-wise. -/
def rustToLower (s : String) : String := ⟨s.data.map rustToLowerChar⟩

/-- Substring search: does `sub` occur starting at some position of `l`? -/
def containsAux (sub : List Char) : List Char → Bool
  | [] => sub.isPrefixOf []
  | c :: cs => sub.isPrefixOf (c :: cs) || containsAux sub cs

/-- Rust `str::contains(&str)`: substring containment. -/
def rustContains (s sub : String) : Bool := containsAux sub.data s.data

/-- `TransactionQuery::matches_amount_filter`: both bounds inclusive, each
checked only when set (the source returns `false` early when a set bound is
violated). -/
def TransactionQuery.matches_amount_filter (q : TransactionQuery) (t : Transaction) : Bool :=
  !(q.min_amount.any (fun mn => t.amount < mn)) && !(q.max_amount.any (fun mx => mx < t.amount))

/-- `TransactionQuery::matches_category_filter`: an empty allow-list keeps
everything, otherwise exact membership of `category_id`. -/
def TransactionQuery.matches_category_filter (q : TransactionQuery) (t : Transaction) : Bool :=
  if q.categories.isEmpty then true else q.categories.contains t.category_id

/-- `TransactionQuery::matches_text_filter`: case-insensitive substring search
on the description; a transaction without a description fails an active filter. -/
def TransactionQuery.matches_text_filter (q : TransactionQuery) (t : Transaction) : Bool :=
  match q.search_text with
  | some s =>
    match t.description with
    | some d => rustContains (rustToLower d) (rustToLower s)
    | none => false
  | none => true

/-- Comparator on `List Char` translated from Rust's `str::cmp` (byte-wise
lexicographic order; on valid UTF-8, byte order and scalar-value order agree). -/
def listCmp : List Char → List Char → Ordering
  | [], [] => .eq
  | [], _ :: _ => .lt
  | _ :: _, [] => .gt
  | a :: as, b :: bs => if a < b then .lt else if b < a then .gt else listCmp as bs

/-- The date comparator of `apply_sorting`'s `SortBy::Date` arm: dated before
dateless, dates compared lexicographically, two dateless dates equal. -/
def dateCmp : Option String → Option String → Ordering
  | some a, some b => listCmp a.data b.data
  | some _, none => .lt
  | none, some _ => .gt
  | none, none => .eq

/-- Sort relation of `sort_by_key(|a| a.amount())`. -/
def ascRel (a b : Transaction) : Prop := a.amount ≤ b.amount

/-- Sort relation of `sort_by_key(|b| Reverse(b.amount()))`. -/
def descRel (a b : Transaction) : Prop := b.amount ≤ a.amount

/-- Sort relation induced by the `SortBy::Date` comparator (`cmp ≠ Greater`). -/
def dateRel (a b : Transaction) : Prop := dateCmp a.date b.date ≠ .gt

instance : DecidableRel ascRel := fun a b => inferInstanceAs (Decidable (a.amount ≤ b.amount))

instance : DecidableRel descRel := fun a b => inferInstanceAs (Decidable (b.amount ≤ a.amount))

instance : DecidableRel dateRel := fun a b => inferInstanceAs (Decidable (dateCmp a.date b.date ≠ .gt))

instance : IsTotal Transaction ascRel := ⟨fun a b => Int.le_total a.amount b.amount⟩

instance : IsTrans Transaction ascRel := ⟨fun _ _ _ h h' => le_trans h h'⟩

instance : IsTotal Transaction descRel := ⟨fun a b => Int.le_total b.amount a.amount⟩

instance : IsTrans Transaction descRel := ⟨fun _ _ _ h h' => le_trans h' h⟩

/-- `TransactionQuery::apply_sorting`: each arm of the source's `match` is a
stable sort by the corresponding comparator. -/
def TransactionQuery.apply_sorting (ts : List Transaction) (s : SortBy) : List Transaction :=
  match s with
  | .amountAscending => ts.insertionSort ascRel
  | .amountDescending => ts.insertionSort descRel
  | .date => ts.insertionSort dateRel

/-- The pre-sort stage of `TransactionQuery::filter`: the three chained
`Iterator::filter` calls. -/
def TransactionQuery.filtered (q : TransactionQuery) (ts : List Transaction) : List Transaction :=
  ((ts.filter q.matches_amount_filter).filter q.matches_category_filter).filter
    q.matches_text_filter

/-- `TransactionQuery::filter`: filter, then sort only if a sort mode is set. -/
def TransactionQuery.filter (q : TransactionQuery) (ts : List Transaction) : List Transaction :=
  match q.sort_by with
  | some s => TransactionQuery.apply_sorting (q.filtered ts) s
  | none => q.filtered ts

lemma listCmp_nil_ne_gt : ∀ bs : List Char, listCmp [] bs ≠ .gt := by
  intro bs; cases bs <;> simp [listCmp]

lemma listCmp_cons_ne_gt {a b : Char} {as bs : List Char} :
    listCmp (a :: as) (b :: bs) ≠ .gt ↔ a < b ∨ (a = b ∧ listCmp as bs ≠ .gt) := by
  rcases lt_trichotomy a b with h | h | h
  · simp [listCmp, if_pos h, h]
  · subst h
    simp [listCmp, lt_irrefl]
  · simp [listCmp, if_neg (asymm h), if_pos h, asymm h, (ne_of_gt h)]

lemma listCmp_le_total : ∀ as bs : List Char, listCmp as bs ≠ .gt ∨ listCmp bs as ≠ .gt := by
  intro as
  induction as with
  | nil => intro bs; exact Or.inl (listCmp_nil_ne_gt bs)
  | cons a as ih =>
    intro bs
    cases bs with
    | nil => exact Or.inr (listCmp_nil_ne_gt _)
    | cons b bs =>
      rcases lt_trichotomy a b with h | h | h
      · exact Or.inl (listCmp_cons_ne_gt.mpr (Or.inl h))
      · subst h
        rcases ih bs with h' | h'
        · exact Or.inl (listCmp_cons_ne_gt.mpr (Or.inr ⟨rfl, h'⟩))
        · exact Or.inr (listCmp_cons_ne_gt.mpr (Or.inr ⟨rfl, h'⟩))
      · exact Or.inr (listCmp_cons_ne_gt.mpr (Or.inl h))

lemma listCmp_le_trans :
    ∀ as bs cs : List Char, listCmp as bs ≠ .gt → listCmp bs cs ≠ .gt → listCmp as cs ≠ .gt := by
  intro as
  induction as with
  | nil => intro bs cs _ _; exact listCmp_nil_ne_gt cs
  | cons a as ih =>
    intro bs cs h1 h2
    cases bs with
    | nil => simp [listCmp] at h1
    | cons b bs =>
      cases cs with
      | nil => simp [listCmp] at h2
      | cons c cs =>
        rcases listCmp_cons_ne_gt.mp h1 with hab | ⟨hab, htab⟩ <;>
          rcases listCmp_cons_ne_gt.mp h2 with hbc | ⟨hbc, htbc⟩
        · exact listCmp_cons_ne_gt.mpr (Or.inl (lt_trans hab hbc))
        · exact listCmp_cons_ne_gt.mpr (Or.inl (hbc ▸ hab))
        · exact listCmp_cons_ne_gt.mpr (Or.inl (hab ▸ hbc))
        · exact listCmp_cons_ne_gt.mpr (Or.inr ⟨hab.trans hbc, ih bs cs htab htbc⟩)

instance : IsTotal Transaction dateRel :=
  ⟨by
    intro a b
    unfold dateRel
    cases a.date <;> cases b.date <;> simp only [dateCmp] <;>
      first
      | exact listCmp_le_total _ _
      | simp⟩

instance : IsTrans Transaction dateRel :=
  ⟨by
    intro a b c
    unfold dateRel
    cases a.date <;> cases b.date <;> cases c.date <;> simp only [dateCmp] <;>
        intro h1 h2 <;>
        first
        | exact listCmp_le_trans _ _ _ h1 h2
        | exact absurd rfl h1
        | exact absurd rfl h2
        | simp⟩

/-- Stability of the embedded stable sort: the elements of any mutually
`r`-equivalent class keep their relative order (stated as invariance of
`filter`). -/
lemma insertionSort_filter_invariant (r : Transaction → Transaction → Prop) [DecidableRel r]
    (p : Transaction → Bool) (l : List Transaction)
    (hp : ∀ a ∈ l, ∀ b ∈ l, p a → p b → r a b) :
    (l.insertionSort r).filter p = l.filter p := by
  have hc : List.Sublist (l.filter p) l := List.filter_sublist l
  have hr : (l.filter p).Pairwise r := by
    refine List.pairwise_of_forall_mem_list ?_
    intro a ha b hb
    rcases List.mem_filter.mp ha with ⟨ha1, ha2⟩
    rcases List.mem_filter.mp hb with ⟨hb1, hb2⟩
    exact hp a ha1 b hb1 ha2 hb2
  have hs : List.Sublist (l.filter p) (l.insertionSort r) := List.sublist_insertionSort hr hc
  have h2 : (l.filter p).filter p = l.filter p :=
    List.filter_eq_self.mpr fun a ha => (List.mem_filter.mp ha).2
  have h3 : List.Sublist (l.filter p) ((l.insertionSort r).filter p) := h2 ▸ hs.filter p
  have h4 : ((l.insertionSort r).filter p).length = (l.filter p).length :=
    ((List.perm_insertionSort r l).filter p).length_eq
  exact (h3.eq_of_length h4.symm).symm

/-- C6: a query with no minimum amount, no maximum amount, an empty category
allow-list, no text search and no sort mode returns every transaction in the
original order. -/
theorem c6_query_identity (ts : List Transaction) :
    TransactionQuery.filter ⟨none, none, [], none, none⟩ ts = ts := by
  simp [TransactionQuery.filter, TransactionQuery.filtered,
    TransactionQuery.matches_amount_filter, TransactionQuery.matches_category_filter,
    TransactionQuery.matches_text_filter, Option.any]

/-- C7: with either amount sort mode (and arbitrary filter settings), the query
result is totally ordered by signed amount, and transactions of equal amount
keep the relative order they had before sorting (the pre-sort stage is itself
an order-preserving filter of the input). -/
theorem c7_amount_sort_stable (mn mx : Option Int) (cats : List String) (st : Option String)
    (ts : List Transaction) :
    ((TransactionQuery.filter ⟨mn, mx, cats, st, some .amountAscending⟩ ts).Sorted ascRel ∧
      ∀ k : Int,
        (TransactionQuery.filter ⟨mn, mx, cats, st, some .amountAscending⟩ ts).filter
            (fun t => t.amount == k) =
          (TransactionQuery.filtered ⟨mn, mx, cats, st, some .amountAscending⟩ ts).filter
            (fun t => t.amount == k)) ∧
    ((TransactionQuery.filter ⟨mn, mx, cats, st, some .amountDescending⟩ ts).Sorted descRel ∧
      ∀ k : Int,
        (TransactionQuery.filter ⟨mn, mx, cats, st, some .amountDescending⟩ ts).filter
            (fun t => t.amount == k) =
          (TransactionQuery.filtered ⟨mn, mx, cats, st, some .amountDescending⟩ ts).filter
            (fun t => t.amount == k)) := by
  constructor
  · constructor
    · exact List.sorted_insertionSort ascRel _
    · intro k
      refine insertionSort_filter_invariant ascRel _ _ ?_
      intro a _ b _ ha hb
      have ha' := eq_of_beq ha
      have hb' := eq_of_beq hb
      unfold ascRel
      rw [ha', hb']
  · constructor
    · exact List.sorted_insertionSort descRel _
    · intro k
      refine insertionSort_filter_invariant descRel _ _ ?_
      intro a _ b _ ha hb
      have ha' := eq_of_beq ha
      have hb' := eq_of_beq hb
      unfold descRel
      rw [ha', hb']

/-- C8: with the by-date sort mode, the result is ordered by the date
comparator (dated transactions ascending by lexicographic date, every dated
transaction before every dateless one), a dateless transaction is never
followed by a dated one, and the dateless transactions keep their relative
pre-sort order. -/
theorem c8_date_sort (mn mx : Option Int) (cats : List String) (st : Option String)
    (ts : List Transaction) :
    (TransactionQuery.filter ⟨mn, mx, cats, st, some .date⟩ ts).Sorted dateRel ∧
    (TransactionQuery.filter ⟨mn, mx, cats, st, some .date⟩ ts).Pairwise
      (fun a b => a.date = none → b.date = none) ∧
    (TransactionQuery.filter ⟨mn, mx, cats, st, some .date⟩ ts).filter
        (fun t => t.date.isNone) =
      (TransactionQuery.filtered ⟨mn, mx, cats, st, some .date⟩ ts).filter
        (fun t => t.date.isNone) := by
  refine ⟨List.sorted_insertionSort dateRel _, ?_, ?_⟩
  · refine (List.sorted_insertionSort dateRel _).imp ?_
    intro a b h ha
    unfold dateRel dateCmp at h
    rw [ha] at h
    cases hb : b.date
    · rfl
    · rw [hb] at h
      simp at h
  · refine insertionSort_filter_invariant dateRel _ _ ?_
    intro a _ b _ ha hb
    unfold dateRel dateCmp
    rw [Option.isNone_iff_eq_none.mp ha, Option.isNone_iff_eq_none.mp hb]
    simp

/-! ## JSON values and JSON-RPC envelopes

`serde_json::Value` is embedded as `Json` (numbers restricted to the integers,
which is all this protocol surface constructs or inspects).  Objects are
association lists with unique keys; `serde_json`'s map iteration order does not
matter for the field-membership claims below. -/

/-- Embedded `serde_json::Value`. -/
inductive Json where
  | null
  | bool (b : Bool)
  | num (n : Int)
  | str (s : String)
  | arr (xs : List Json)
  | obj (kvs : List (String × Json))

/-- `Value::is_null`. -/
def Json.isNull : Json → Bool
  | .null => true
  | _ => false

/-- `Value::as_str`. -/
def Json.asStr : Json → Option String
  | .str s => some s
  | _ => none

/-- Key lookup inside an object (`Map::get`): `none` on non-objects. -/
def Json.lookupKey : Json → String → Option Json
  | .obj kvs, k => (kvs.find? (fun kv => kv.fst == k)).map (fun kv => kv.snd)
  | _, _ => none

/-- `value[key]` (`Index for Value`): member lookup, `Null` when the key is
absent or the value is not an object. -/
def Json.index (v : Json) (k : String) : Json := (v.lookupKey k).getD Json.null

/-- The error enumeration of `src/domain/error.rs` (`enum YnabError`).
`HttpApiError`/`IoError` wrap external error values; only their display text is
observable here, so they carry it directly. -/
inductive YnabError where
  | invalidBudgetId (m : String)
  | categoryNotFound (m : String)
  | accountNotFound (m : String)
  | payeeNotFound (m : String)
  | transactionNotFound (m : String)
  | invalidAmount (m : String)
  | invalidDate (m : String)
  | httpApiError (m : String)
  | ioError (m : String)
  | apiError (m : String)
deriving DecidableEq, Repr

/-- The `Display` rendering of `YnabError` (the `thiserror` format strings). -/
def ynabErrorMessage : YnabError → String
  | .invalidBudgetId m => "Invalid budget ID: " ++ m
  | .categoryNotFound m => "Category not found: " ++ m
  | .accountNotFound m => "Account not found: " ++ m
  | .payeeNotFound m => "Payee not found: " ++ m
  | .transactionNotFound m => "Transaction not found: " ++ m
  | .invalidAmount m => "Invalid money amount: " ++ m
  | .invalidDate m => "Invalid date format: " ++ m
  | .httpApiError m => "API request failed: " ++ m
  | .ioError m => "IO operation failed: " ++ m
  | .apiError m => "API request failed: " ++ m

/-- `struct JsonRpcRequest` from `jsonrpc.rs`. -/
structure JsonRpcRequest where
  jsonrpc : String
  id : Option Json
  method : String
  params : Option Json

/-- `struct JsonRpcError` from `jsonrpc.rs`. -/
structure JsonRpcError where
  code : Int
  message : String
  data : Option Json

/-- `struct JsonRpcResponse` from `jsonrpc.rs`. -/
structure JsonRpcResponse where
  jsonrpc : String
  id : Json
  result : Option Json
  error : Option JsonRpcError

/-- `JsonRpcRequest::from_json`, after `serde_json::from_str` has produced a
`Value` (the JSON-text-to-`Value` step is standard JSON parsing and is kept
abstract; the session loop below takes it as a parameter).  Field extraction is
translated literally: `jsonrpc` and `method` must be strings, `id`/`params` are
absent exactly when indexing yields `Null`. -/
def fromJsonValue (v : Json) : Except YnabError JsonRpcRequest :=
  match (v.index "jsonrpc").asStr with
  | none => .error (.apiError "Missing jsonrpc field")
  | some jr =>
    match (v.index "method").asStr with
    | none => .error (.apiError "Missing method field")
    | some md =>
      .ok
        { jsonrpc := jr
          id := if (v.index "id").isNull then none else some (v.index "id")
          method := md
          params := if (v.index "params").isNull then none else some (v.index "params") }

/-- `JsonRpcResponse::success`. -/
def JsonRpcResponse.success (id : Json) (result : Json) : JsonRpcResponse :=
  { jsonrpc := "2.0", id := id, result := some result, error := none }

/-- `JsonRpcResponse::error`. -/
def JsonRpcResponse.mkError (id : Json) (code : Int) (message : String) (data : Option Json) :
    JsonRpcResponse :=
  { jsonrpc := "2.0", id := id, result := none, error := some ⟨code, message, data⟩ }

/-- `JsonRpcResponse::to_json`, up to the final `serde_json::to_string`: the
object (map) whose rendering the source serializes. -/
def JsonRpcResponse.toJson (r : JsonRpcResponse) : Json :=
  Json.obj
    ([("jsonrpc", Json.str r.jsonrpc), ("id", r.id)] ++
      (match r.result with
        | some v => [("result", v)]
        | none => []) ++
      (match r.error with
        | some e =>
          [("error",
            Json.obj
              ([("code", Json.num e.code), ("message", Json.str e.message)] ++
                (match e.data with
                  | some d => [("data", d)]
                  | none => [])))]
        | none => []))

/-! ## MCP protocol layer (`mcp_protocol.rs`)

`McpServer` holds a `Handler`; the handler's tool registry and tool execution
(`Handler::list_tools` / `Handler::execute_tool`, whose bodies call the HTTP
client) are the model's parameters, so every statement below holds for every
possible handler behaviour. -/

/-- A `(name, description)` tool registry entry (`handler.rs`, `struct Tool`). -/
structure Tool where
  name : String
  description : String

/-- The dispatcher together with the handler surface it consumes. -/
structure McpServer where
  executeTool : String → Json → Except YnabError String
  listTools : List Tool

/-- `McpServer::handle_initialize`: fixed capability result, never fails. -/
def handleInit (id : Json) (params : Option Json) : Except YnabError JsonRpcResponse :=
  let _params := params.getD (Json.obj [])
  .ok (JsonRpcResponse.success id
    (Json.obj
      [("protocolVersion", Json.str "2024-11-05"),
        ("capabilities", Json.obj [("tools", Json.obj [])]),
        ("serverInfo",
          Json.obj [("name", Json.str "ynab-mcp-server"), ("version", Json.str "0.1.0")])]))

/-- `McpServer::handle_tools_list`. -/
def handleToolsList (srv : McpServer) (id : Json) : Except YnabError JsonRpcResponse :=
  .ok (JsonRpcResponse.success id
    (Json.obj
      [("tools",
        Json.arr
          (srv.listTools.map
            (fun t => Json.obj [("name", Json.str t.name), ("description", Json.str t.description)])))]))

/-- `McpServer::handle_tools_call`: absent `params` or a non-string `name`
short-circuit with an error (the `?` operator) before `execute_tool`; an
executor failure becomes a `-32000` error response. -/
def handleToolsCall (srv : McpServer) (id : Json) (params : Option Json) :
    Except YnabError JsonRpcResponse :=
  match params with
  | none => .error (.apiError "Missing params for tools/call")
  | some ps =>
    match (ps.index "name").asStr with
    | none => .error (.apiError "Missing tool name")
    | some toolName =>
      let args := ps.index "arguments"
      match srv.executeTool toolName args with
      | .ok content =>
        .ok (JsonRpcResponse.success id
          (Json.obj
            [("content",
              Json.arr [Json.obj [("type", Json.str "text"), ("text", Json.str content)]])]))
      | .error e =>
        .ok (JsonRpcResponse.mkError id (-32000)
          ("Tool execution failed: " ++ ynabErrorMessage e) none)

/-- `McpServer::handle_request`: method dispatch; unknown methods get a
`-32601` error response. -/
def McpServer.handleRequest (srv : McpServer) (req : JsonRpcRequest) :
    Except YnabError JsonRpcResponse :=
  let id := req.id.getD Json.null
  match req.method with
  | "initialize" => handleInit id req.params
  | "tools/list" => handleToolsList srv id
  | "tools/call" => handleToolsCall srv id req.params
  | _ => .ok (JsonRpcResponse.mkError id (-32601) "Method not found" none)

/-- The session loop's handling of one dispatched request (`mod.rs`, lines
69-80): a dispatcher-level `Err` becomes a `-32000` "Server error" response
with a `null` id. -/
def respondTo (srv : McpServer) (req : JsonRpcRequest) : JsonRpcResponse :=
  match srv.handleRequest req with
  | .ok resp => resp
  | .error e =>
    JsonRpcResponse.mkError Json.null (-32000) ("Server error: " ++ ynabErrorMessage e) none

/-! ## Framed transport (`transport.rs`)

The byte stream is a `List Nat` of byte values.  `read_message` wraps the
reader in a `BufReader` and consumes exactly the header line, the separator
line and the declared body; the embedding threads the unconsumed remainder of
the stream explicitly. -/

/-- UTF-8 encoding of one scalar value (Rust `String` body bytes); the bit
operations of the standard encoding are written with `/`, `%` and `+`. -/
def utf8EncodeChar (c : Char) : List Nat :=
  let v := c.toNat
  if v < 128 then [v]
  else if v < 2048 then [192 + v / 64, 128 + v % 64]
  else if v < 65536 then [224 + v / 4096, 128 + v / 64 % 64, 128 + v % 64]
  else [240 + v / 262144, 128 + v / 4096 % 64, 128 + v / 64 % 64, 128 + v % 64]

/-- UTF-8 encoding of a whole string. -/
def utf8Encode (s : String) : List Nat := (s.data.map utf8EncodeChar).flatten

/-- Strict decoding of one UTF-8 scalar value from its leading byte `b0` and
the following bytes (Rust `String::from_utf8` / `str::from_utf8` validation:
continuation ranges, no overlong forms, no surrogates, at most U+10FFFF).
Returns the decoded character and the unconsumed bytes. -/
def utf8DecodeAux (b0 : Nat) (bs : List Nat) : Option (Char × List Nat) :=
  if b0 < 128 then some (Char.ofNat b0, bs)
  else if b0 < 192 then none
  else if b0 < 224 then
    match bs with
    | b1 :: bs1 =>
      if 128 ≤ b1 ∧ b1 < 192 then
        let v := (b0 - 192) * 64 + (b1 - 128)
        if 128 ≤ v then some (Char.ofNat v, bs1) else none
      else none
    | [] => none
  else if b0 < 240 then
    match bs with
    | b1 :: b2 :: bs2 =>
      if (128 ≤ b1 ∧ b1 < 192) ∧ (128 ≤ b2 ∧ b2 < 192) then
        let v := (b0 - 224) * 4096 + (b1 - 128) * 64 + (b2 - 128)
        if 2048 ≤ v ∧ ¬(55296 ≤ v ∧ v < 57344) then some (Char.ofNat v, bs2) else none
      else none
    | _ => none
  else if b0 < 248 then
    match bs with
    | b1 :: b2 :: b3 :: bs3 =>
      if (128 ≤ b1 ∧ b1 < 192) ∧ (128 ≤ b2 ∧ b2 < 192) ∧ (128 ≤ b3 ∧ b3 < 192) then
        let v := (b0 - 240) * 262144 + (b1 - 128) * 4096 + (b2 - 128) * 64 + (b3 - 128)
        if 65536 ≤ v ∧ v < 1114112 then some (Char.ofNat v, bs3) else none
      else none
    | _ => none
  else none

/-- Decode a whole byte list, one scalar at a time.  The fuel only bounds the
number of scalars (each consumes at least one byte), so any fuel of at least
the list's length computes the decoding; it makes the recursion structural. -/
def utf8DecodeGo : Nat → List Nat → Option (List Char)
  | _, [] => some []
  | 0, _ :: _ => none
  | fuel + 1, b0 :: bs =>
    match utf8DecodeAux b0 bs with
    | none => none
    | some cr => (utf8DecodeGo fuel cr.2).map (fun cs => cr.1 :: cs)

/-- Strict UTF-8 decoding of a byte list. -/
def utf8DecodeList (bs : List Nat) : Option (List Char) := utf8DecodeGo bs.length bs

/-- Decode a byte list to a string. -/
def utf8DecodeStr (bs : List Nat) : Option String := (utf8DecodeList bs).map (fun cs => ⟨cs⟩)

/-- `BufRead::read_line` consumption: everything up to and including the first
newline byte, or the whole rest of the stream at end of input. -/
def readLine : List Nat → List Nat × List Nat
  | [] => ([], [])
  | b :: bs =>
    if b = 10 then ([b], bs)
    else
      let p := readLine bs
      (b :: p.1, p.2)

/-- The Unicode White_Space code points (Rust `char::is_whitespace`). -/
def rustIsWs (c : Char) : Bool :=
  [9, 10, 11, 12, 13, 32, 133, 160, 5760, 8192, 8193, 8194, 8195, 8196, 8197, 8198, 8199,
    8200, 8201, 8202, 8232, 8233, 8239, 8287, 12288].contains c.toNat

/-- Rust `str::trim`. -/
def rustTrim (s : String) : String :=
  ⟨(((s.data.dropWhile rustIsWs).reverse.dropWhile rustIsWs).reverse)⟩

/-- Rust `str::starts_with` (byte order equals character order on UTF-8). -/
def rustStartsWith (s p : String) : Bool := p.data.isPrefixOf s.data

/-- Rust `str::strip_prefix("Content-Length:")`. -/
def stripContentLength (s : String) : Option String :=
  if rustStartsWith s "Content-Length:" then some ⟨s.data.drop 15⟩ else none

/-- Rust `usize::from_str` digit loop: ASCII digits only, accumulating in base
ten (overflow is checked against `usize::MAX` afterwards, which agrees with
Rust's per-step check because the accumulator is nondecreasing). -/
def rustParseDigits : List Nat → Nat → Option Nat
  | [], acc => some acc
  | c :: cs, acc =>
    if 48 ≤ c ∧ c ≤ 57 then rustParseDigits cs (acc * 10 + (c - 48)) else none

/-- Rust `usize::from_str`: optional `+` sign, one or more digits, value at
most `usize::MAX` (64-bit platform). -/
def rustParseUsize (s : String) : Option Nat :=
  let ds :=
    match s.data with
    | c :: cs => if c = '+' then cs else c :: cs
    | [] => []
  if ds.isEmpty then none
  else
    match rustParseDigits (ds.map Char.toNat) 0 with
    | some v => if v < 18446744073709551616 then some v else none
    | none => none

/-- `read_message` (`transport.rs`): header line, `Content-Length` check and
parse, separator line, exact body read, UTF-8 validation.  Returns the result
together with the unconsumed remainder of the stream.  `read_line` errors
(`IoError`) when the consumed line bytes are not UTF-8; `read_exact` errors
when fewer than the declared bytes remain. -/
def readMessage (bs : List Nat) : Except YnabError String × List Nat :=
  let p1 := readLine bs
  match utf8DecodeStr p1.1 with
  | none => (.error (.ioError "stream did not contain valid UTF-8"), p1.2)
  | some headerLine =>
    if rustStartsWith headerLine "Content-Length:" = false then
      (.error (.apiError "Expected Content-Length header"), p1.2)
    else
      match stripContentLength (rustTrim headerLine) with
      | none => (.error (.apiError "Invalid Content-Length header"), p1.2)
      | some afterColon =>
        let lenStr := rustTrim afterColon
        match rustParseUsize lenStr with
        | none => (.error (.apiError ("Invalid Content-Length value: " ++ lenStr)), p1.2)
        | some n =>
          let p2 := readLine p1.2
          match utf8DecodeStr p2.1 with
          | none => (.error (.ioError "stream did not contain valid UTF-8"), p2.2)
          | some _ =>
            if p2.2.length < n then
              (.error (.ioError "failed to fill whole buffer"), p2.2.drop n)
            else
              match utf8DecodeStr (p2.2.take n) with
              | none => (.error (.apiError "Message content is not valid UTF-8"), p2.2.drop n)
              | some m => (.ok m, p2.2.drop n)

/-- Decimal digit characters of `n`, most significant first, with the fuel
that Rust's formatting loop does not need spelled out (`n` is always reached
before `fuel` runs out). -/
def digitsGo : Nat → Nat → List Char → List Char
  | 0, _, acc => acc
  | fuel + 1, n, acc =>
    let acc' := Char.ofNat (48 + n % 10) :: acc
    if n < 10 then acc' else digitsGo fuel (n / 10) acc'

/-- Decimal digits of `n`. -/
def natDigits (n : Nat) : List Char := digitsGo (n + 1) n []

/-- Rust `Display` for `usize`: plain decimal. -/
def natRepr (n : Nat) : String := ⟨natDigits n⟩

/-- `write_message` (`transport.rs`): the single formatted
`Content-Length: <len>\r\n\r\n<body>` write, where `<len>` is the byte length
of the body (`str::len`). -/
def writeMessage (m : String) : List Nat :=
  utf8Encode ("Content-Length: " ++ natRepr (utf8Encode m).length ++ "\r\n\r\n" ++ m)

/-! ## Session loop (`mod.rs`, `run_mcp_server`)

The loop reads a framed message, parses it, dispatches it and writes one
response, until a read fails.  The JSON-text-to-`Value` step of
`JsonRpcRequest::from_json` (`serde_json::from_str`) is a parameter `p`; the
fallible output stream (`write_message` over the generic writer) is a
parameter `w` over an arbitrary writer state; the statements below hold for
every parser and writer behaviour.  A `BufReader` over a reader that delivers
bytes as they become available consumes exactly the bytes of one message per
call, which is what threading the remainder models. -/

/-- `JsonRpcRequest::from_json`: JSON-text parse failure (reported as
`Invalid JSON: …`) or field extraction. -/
def parseRequest (p : String → Except String Json) (s : String) :
    Except YnabError JsonRpcRequest :=
  match p s with
  | .error e => .error (.apiError ("Invalid JSON: " ++ e))
  | .ok v => fromJsonValue v

/-- The one response the loop body produces for one read message: a `-32700`
parse-error response (id `null`) on `from_json` failure, otherwise the
dispatcher's answer. -/
def loopResponse (p : String → Except String Json) (srv : McpServer) (msg : String) :
    JsonRpcResponse :=
  match parseRequest p msg with
  | .error e =>
    JsonRpcResponse.mkError Json.null (-32700) ("Parse error: " ++ ynabErrorMessage e) none
  | .ok req => respondTo srv req

lemma readLine_append : ∀ bs : List Nat, (readLine bs).1 ++ (readLine bs).2 = bs := by
  intro bs
  induction bs with
  | nil => rfl
  | cons b bs ih =>
    by_cases h : b = 10
    · simp [readLine, h]
    · simp [readLine, h, ih]

lemma readLine_rest_le (bs : List Nat) : (readLine bs).2.length ≤ bs.length := by
  conv_rhs => rw [← readLine_append bs]
  simp

lemma readMessage_ok_length {bs : List Nat} {m : String} {rest : List Nat}
    (h : readMessage bs = (.ok m, rest)) : rest.length < bs.length := by
  unfold readMessage at h
  dsimp only [] at h
  split at h
  · simp at h
  next headerLine hdec =>
    split at h
    · simp at h
    next hsw =>
      have hne : (readLine bs).1 ≠ [] := by
        intro hnil
        rw [hnil] at hdec
        have : headerLine = "" := by
          have : utf8DecodeStr [] = some "" := rfl
          rw [this] at hdec
          exact (Option.some_inj.mp hdec).symm
        rw [this] at hsw
        simp [rustStartsWith, List.isPrefixOf] at hsw
      have hlt1 : (readLine bs).2.length < bs.length := by
        conv_rhs => rw [← readLine_append bs]
        rcases hcons : (readLine bs).1 with _ | ⟨x, xs⟩
        · exact absurd hcons hne
        · simp [hcons]
          omega
      repeat' split at h
      all_goals
        first
        | (simp only [Prod.mk.injEq] at h
           rcases h with ⟨-, h2⟩
           subst h2
           first
           | exact hlt1
           | calc ((readLine (readLine bs).2).2.drop _).length
                 ≤ (readLine (readLine bs).2).2.length := by simp
               _ ≤ (readLine bs).2.length := readLine_rest_le _
               _ < bs.length := hlt1)
        | simp at h

/-- `run_mcp_server`'s loop: read, parse, dispatch, write, repeat; any read
error exits the loop with `Ok(())`; a write error is propagated (`?`) as the
function's result. -/
def runServer {σ : Type} (p : String → Except String Json) (srv : McpServer)
    (w : σ → JsonRpcResponse → Except YnabError σ) (input : List Nat) (st : σ) :
    σ × Except YnabError Unit :=
  match h : readMessage input with
  | (.error _, _) => (st, .ok ())
  | (.ok msg, rest) =>
    match w st (loopResponse p srv msg) with
    | .error e => (st, .error e)
    | .ok st' => runServer p srv w rest st'
termination_by input.length
decreasing_by exact readMessage_ok_length h

/-- The infallible collecting writer (a `Vec<u8>` sink, observed at response
granularity): the written responses in order. -/
def collectW : List JsonRpcResponse → JsonRpcResponse → Except YnabError (List JsonRpcResponse) :=
  fun st r => .ok (st ++ [r])

/-- A writer whose next write fails with `e` (a broken output stream). -/
def failW (e : YnabError) : Unit → JsonRpcResponse → Except YnabError Unit :=
  fun _ _ => .error e

/-- A fixed handler surface used to instantiate closed statements (any
concrete behaviour serves; the theorems quantify over all of them). -/
def sampleServer : McpServer :=
  { executeTool := fun _ _ => .ok "ok", listTools := [] }

/-- A fixed JSON-text parser used to instantiate closed statements. -/
def stubParser : String → Except String Json := fun _ => .error "expected value"

/-! ## Session-loop unfolding lemmas -/

lemma runServer_read_error {σ : Type} (p : String → Except String Json) (srv : McpServer)
    (w : σ → JsonRpcResponse → Except YnabError σ) {input : List Nat} (st : σ)
    {e : YnabError} {r : List Nat} (h : readMessage input = (.error e, r)) :
    runServer p srv w input st = (st, .ok ()) := by
  rw [runServer, h]

lemma runServer_step {σ : Type} (p : String → Except String Json) (srv : McpServer)
    (w : σ → JsonRpcResponse → Except YnabError σ) {input : List Nat} (st : σ)
    {msg : String} {rest : List Nat} (h : readMessage input = (.ok msg, rest)) :
    runServer p srv w input st =
      match w st (loopResponse p srv msg) with
      | .error e => (st, .error e)
      | .ok st' => runServer p srv w rest st' := by
  rw [runServer, h]

lemma runServer_collect_step (p : String → Except String Json) (srv : McpServer)
    {input : List Nat} (acc : List JsonRpcResponse) {msg : String} {rest : List Nat}
    (h : readMessage input = (.ok msg, rest)) :
    runServer p srv collectW input acc =
      runServer p srv collectW rest (acc ++ [loopResponse p srv msg]) := by
  rw [runServer_step p srv collectW acc h]
  rfl

lemma runServer_failW (p : String → Except String Json) (srv : McpServer)
    {input : List Nat} {msg : String} {rest : List Nat} (e : YnabError)
    (h : readMessage input = (.ok msg, rest)) :
    runServer p srv (failW e) input () = ((), .error e) := by
  rw [runServer_step p srv (failW e) () h]
  rfl

lemma handleRequest_ok_id (srv : McpServer) (req : JsonRpcRequest) (resp : JsonRpcResponse)
    (h : srv.handleRequest req = .ok resp) : resp.id = req.id.getD Json.null := by
  unfold McpServer.handleRequest at h
  dsimp only [] at h
  split at h
  · unfold handleInit at h
    simp only [Except.ok.injEq] at h
    rw [← h]
    rfl
  · unfold handleToolsList at h
    simp only [Except.ok.injEq] at h
    rw [← h]
    rfl
  · unfold handleToolsCall at h
    dsimp only [] at h
    repeat' split at h
    all_goals first
    | (simp only [Except.ok.injEq] at h; rw [← h]; rfl)
    | simp at h
  · simp only [Except.ok.injEq] at h
    rw [← h]
    rfl

lemma respondTo_id_of_none (srv : McpServer) (req : JsonRpcRequest) (h : req.id = none) :
    (respondTo srv req).id = Json.null := by
  unfold respondTo
  split
  next resp hok =>
    rw [handleRequest_ok_id srv req resp hok, h]
    rfl
  next e herr => rfl

/-- C9: every response built by the two envelope constructors carries exactly
one of `result`/`error`, and its serialized object always has the `jsonrpc`
and `id` members, exactly one of `result`/`error`, and an `error` member with
`code` and `message` always present and `data` present exactly when supplied. -/
theorem c9_response_exclusivity (id res : Json) (code : Int) (msg : String) (data : Option Json) :
    ((JsonRpcResponse.success id res).result = some res ∧
      (JsonRpcResponse.success id res).error = none ∧
      (JsonRpcResponse.success id res).toJson.lookupKey "jsonrpc" = some (Json.str "2.0") ∧
      (JsonRpcResponse.success id res).toJson.lookupKey "id" = some id ∧
      (JsonRpcResponse.success id res).toJson.lookupKey "result" = some res ∧
      (JsonRpcResponse.success id res).toJson.lookupKey "error" = none) ∧
    ((JsonRpcResponse.mkError id code msg data).result = none ∧
      (JsonRpcResponse.mkError id code msg data).error = some ⟨code, msg, data⟩ ∧
      (JsonRpcResponse.mkError id code msg data).toJson.lookupKey "jsonrpc" =
        some (Json.str "2.0") ∧
      (JsonRpcResponse.mkError id code msg data).toJson.lookupKey "id" = some id ∧
      (JsonRpcResponse.mkError id code msg data).toJson.lookupKey "result" = none ∧
      ∃ eo,
        (JsonRpcResponse.mkError id code msg data).toJson.lookupKey "error" =
          some (Json.obj eo) ∧
        (Json.obj eo).lookupKey "code" = some (Json.num code) ∧
        (Json.obj eo).lookupKey "message" = some (Json.str msg) ∧
        (Json.obj eo).lookupKey "data" = data) := by
  refine ⟨?_, ?_⟩
  · simp [JsonRpcResponse.success, JsonRpcResponse.toJson, Json.lookupKey, List.find?]
  · cases data with
    | none =>
      simp [JsonRpcResponse.mkError, JsonRpcResponse.toJson, Json.lookupKey, List.find?]
      rintro a b (⟨rfl, -⟩ | ⟨rfl, -⟩) <;> simp
    | some d =>
      simp [JsonRpcResponse.mkError, JsonRpcResponse.toJson, Json.lookupKey, List.find?]

/-- C3 (amended): a request value whose `jsonrpc` member is a string and whose
`method` member is the empty string parses successfully (`from_json` does not
reject the empty method), and the dispatcher answers it with the `-32601`
"Method not found" error response, not with an invalid-request error. -/
theorem c3_empty_method_is_method_not_found (v : Json)
    (hj : (v.index "jsonrpc").asStr.isSome) (hm : v.index "method" = Json.str "") :
    ∃ req, fromJsonValue v = .ok req ∧ req.method = "" ∧
      ∀ srv : McpServer,
        respondTo srv req =
          JsonRpcResponse.mkError (req.id.getD Json.null) (-32601) "Method not found" none := by
  rcases hok : (v.index "jsonrpc").asStr with _ | jr
  · rw [hok] at hj
    simp at hj
  · refine ⟨⟨jr, if (v.index "id").isNull then none else some (v.index "id"), "",
      if (v.index "params").isNull then none else some (v.index "params")⟩, ?_, rfl, ?_⟩
    · unfold fromJsonValue
      rw [hok, hm]
      rfl
    · intro srv
      rfl

/-- C3 counterexample: the concrete request value for
`jsonrpc "2.0", id 1, method ""` is accepted by `from_json` and answered with
`-32601` "Method not found" (so it is not rejected and not answered as an
invalid request). -/
theorem c3_counterexample :
    fromJsonValue
        (Json.obj [("jsonrpc", Json.str "2.0"), ("id", Json.num 1), ("method", Json.str "")]) =
      .ok ⟨"2.0", some (Json.num 1), "", none⟩ ∧
    respondTo sampleServer ⟨"2.0", some (Json.num 1), "", none⟩ =
      JsonRpcResponse.mkError (Json.num 1) (-32601) "Method not found" none :=
  ⟨rfl, rfl⟩

theorem c3_witness :
    ((Json.obj [("jsonrpc", Json.str "2.0"), ("id", Json.num 1),
          ("method", Json.str "")]).index "jsonrpc").asStr.isSome = true ∧
    (Json.obj [("jsonrpc", Json.str "2.0"), ("id", Json.num 1),
        ("method", Json.str "")]).index "method" = Json.str "" ∧
    (∃ req,
      fromJsonValue
          (Json.obj [("jsonrpc", Json.str "2.0"), ("id", Json.num 1),
            ("method", Json.str "")]) = .ok req ∧
      req.method = "" ∧
      ∀ srv : McpServer,
        respondTo srv req =
          JsonRpcResponse.mkError (req.id.getD Json.null) (-32601) "Method not found" none) :=
  ⟨rfl, rfl, c3_empty_method_is_method_not_found _ (by rfl) (by rfl)⟩

/-- C4: a `tools/call` request whose `params` lacks a string `name` (or lacks
`params` entirely) is answered with a JSON-RPC error response; the answer is
the same for every tool executor (so no tool handler is consulted); and the
session loop writes that one response and proceeds to the next read. -/
theorem c4_tools_call_missing_name (exec exec' : String → Json → Except YnabError String)
    (tools : List Tool) (jr : String) (rid : Option Json) (params : Option Json)
    (hp : params = none ∨ ∃ ps, params = some ps ∧ (ps.index "name").asStr = none) :
    (∃ m,
      respondTo ⟨exec, tools⟩ ⟨jr, rid, "tools/call", params⟩ =
        JsonRpcResponse.mkError Json.null (-32000)
          ("Server error: " ++ ("API request failed: " ++ m)) none) ∧
    respondTo ⟨exec, tools⟩ ⟨jr, rid, "tools/call", params⟩ =
      respondTo ⟨exec', tools⟩ ⟨jr, rid, "tools/call", params⟩ ∧
    (∀ (p : String → Except String Json) (input : List Nat) (msg : String) (rest : List Nat)
        (acc : List JsonRpcResponse),
      readMessage input = (.ok msg, rest) →
      parseRequest p msg = .ok ⟨jr, rid, "tools/call", params⟩ →
      runServer p ⟨exec, tools⟩ collectW input acc =
        runServer p ⟨exec, tools⟩ collectW rest
          (acc ++ [respondTo ⟨exec, tools⟩ ⟨jr, rid, "tools/call", params⟩])) := by
  refine ⟨?_, ?_, ?_⟩
  · rcases hp with rfl | ⟨ps, rfl, hname⟩
    · exact ⟨"Missing params for tools/call", rfl⟩
    · refine ⟨"Missing tool name", ?_⟩
      unfold respondTo McpServer.handleRequest handleToolsCall
      dsimp only []
      rw [hname]
      rfl
  · rcases hp with rfl | ⟨ps, rfl, hname⟩
    · rfl
    · unfold respondTo McpServer.handleRequest handleToolsCall
      dsimp only []
      rw [hname]
      rfl
  · intro p input msg rest acc hread hparse
    rw [runServer_collect_step p ⟨exec, tools⟩ acc hread]
    unfold loopResponse
    rw [hparse]

theorem c4_witness :
    ((some (Json.obj []) = none ∨
        ∃ ps, some (Json.obj []) = some ps ∧ (ps.index "name").asStr = none) ∧
      readMessage (writeMessage "x") = (.ok "x", []) ∧
      parseRequest
          (fun _ => .ok (Json.obj
            [("jsonrpc", Json.str "2.0"), ("method", Json.str "tools/call"),
              ("params", Json.obj [])])) "x" =
        .ok ⟨"2.0", none, "tools/call", some (Json.obj [])⟩) ∧
    (∃ m,
      respondTo ⟨fun _ _ => .ok "ok", []⟩ ⟨"2.0", none, "tools/call", some (Json.obj [])⟩ =
        JsonRpcResponse.mkError Json.null (-32000)
          ("Server error: " ++ ("API request failed: " ++ m)) none) ∧
    runServer
        (fun _ => .ok (Json.obj
          [("jsonrpc", Json.str "2.0"), ("method", Json.str "tools/call"),
            ("params", Json.obj [])]))
        ⟨fun _ _ => .ok "ok", []⟩ collectW (writeMessage "x") [] =
      runServer
        (fun _ => .ok (Json.obj
          [("jsonrpc", Json.str "2.0"), ("method", Json.str "tools/call"),
            ("params", Json.obj [])]))
        ⟨fun _ _ => .ok "ok", []⟩ collectW []
        [respondTo ⟨fun _ _ => .ok "ok", []⟩ ⟨"2.0", none, "tools/call", some (Json.obj [])⟩] :=
  ⟨⟨Or.inr ⟨_, rfl, rfl⟩, rfl, rfl⟩,
    (c4_tools_call_missing_name (fun _ _ => .ok "ok") (fun _ _ => .ok "ok") [] "2.0" none
        (some (Json.obj [])) (Or.inr ⟨_, rfl, rfl⟩)).1,
    (c4_tools_call_missing_name (fun _ _ => .ok "ok") (fun _ _ => .ok "ok") [] "2.0" none
        (some (Json.obj [])) (Or.inr ⟨_, rfl, rfl⟩)).2.2 _ _ _ _ _ rfl rfl⟩

/-- C10: a JSON `null` id parses exactly like an absent id (both become "no
id"); every request with no id is answered with a response whose `id` is JSON
`null` (the dispatcher substitutes `null`, and the loop's fallback error
response also carries `null`); and for every successfully parsed request the
loop writes exactly one response and continues. -/
theorem c10_null_id_notifications :
    (∀ kvs : List (String × Json), (∀ kv ∈ kvs, kv.fst ≠ "id") →
      fromJsonValue (Json.obj (("id", Json.null) :: kvs)) = fromJsonValue (Json.obj kvs)) ∧
    (∀ (srv : McpServer) (req : JsonRpcRequest), req.id = none →
      (respondTo srv req).id = Json.null) ∧
    (∀ (p : String → Except String Json) (srv : McpServer) (input : List Nat) (msg : String)
        (rest : List Nat) (req : JsonRpcRequest) (acc : List JsonRpcResponse),
      readMessage input = (.ok msg, rest) → parseRequest p msg = .ok req →
      runServer p srv collectW input acc =
        runServer p srv collectW rest (acc ++ [respondTo srv req])) := by
  refine ⟨?_, ?_, ?_⟩
  · intro kvs h
    have hk : ∀ k : String, k ≠ "id" →
        (Json.obj (("id", Json.null) :: kvs)).index k = (Json.obj kvs).index k := by
      intro k hkne
      have hne : (("id" : String) == k) = false := by
        simp only [beq_eq_false_iff_ne]
        exact fun hh => hkne hh.symm
      simp only [Json.index, Json.lookupKey, List.find?_cons, hne]
    have hidL : (Json.obj (("id", Json.null) :: kvs)).index "id" = Json.null := by
      simp only [Json.index, Json.lookupKey, List.find?_cons, beq_self_eq_true]
      rfl
    have hidR : (Json.obj kvs).index "id" = Json.null := by
      simp only [Json.index, Json.lookupKey]
      rw [List.find?_eq_none.mpr ?_]
      · rfl
      · intro x hx
        simp only [beq_iff_eq]
        exact h x hx
    unfold fromJsonValue
    rw [hk "jsonrpc" (by decide), hk "method" (by decide), hk "params" (by decide), hidL, hidR]
  · exact respondTo_id_of_none
  · intro p srv input msg rest req acc hread hparse
    rw [runServer_collect_step p srv acc hread]
    unfold loopResponse
    rw [hparse]

/-- C1 (amended): parse faults, unknown methods and dispatcher/tool faults are
converted to JSON-RPC error responses and the loop continues; but every
`read_message` fault — framing fault, truncation, bad encoding or end of
stream alike — exits the loop immediately with `Ok(())` and writes nothing
(the fault is not the loop's returned value); only a failed response write
terminates the loop with the underlying fault as `run_mcp_server`'s result. -/
theorem c1_fault_propagation :
    (∀ (σ : Type) (p : String → Except String Json) (srv : McpServer)
        (w : σ → JsonRpcResponse → Except YnabError σ) (input : List Nat) (st : σ)
        (e : YnabError) (r : List Nat),
      readMessage input = (.error e, r) → runServer p srv w input st = (st, .ok ())) ∧
    (∀ (p : String → Except String Json) (srv : McpServer) (input : List Nat) (msg : String)
        (rest : List Nat) (e : YnabError) (acc : List JsonRpcResponse),
      readMessage input = (.ok msg, rest) → parseRequest p msg = .error e →
      runServer p srv collectW input acc =
        runServer p srv collectW rest
          (acc ++ [JsonRpcResponse.mkError Json.null (-32700)
              ("Parse error: " ++ ynabErrorMessage e) none])) ∧
    (∀ (p : String → Except String Json) (srv : McpServer) (input : List Nat) (msg : String)
        (rest : List Nat) (req : JsonRpcRequest) (acc : List JsonRpcResponse),
      readMessage input = (.ok msg, rest) → parseRequest p msg = .ok req →
      runServer p srv collectW input acc =
        runServer p srv collectW rest (acc ++ [respondTo srv req])) ∧
    (∀ (p : String → Except String Json) (srv : McpServer) (input : List Nat) (msg : String)
        (rest : List Nat) (e : YnabError),
      readMessage input = (.ok msg, rest) →
      runServer p srv (failW e) input () = ((), .error e)) := by
  refine ⟨?_, ?_, ?_, ?_⟩
  · intro σ p srv w input st e r h
    exact runServer_read_error p srv w st h
  · intro p srv input msg rest e acc hread hparse
    rw [runServer_collect_step p srv acc hread]
    unfold loopResponse
    rw [hparse]
  · intro p srv input msg rest req acc hread hparse
    rw [runServer_collect_step p srv acc hread]
    unfold loopResponse
    rw [hparse]
  · intro p srv input msg rest e hread
    exact runServer_failW p srv e hread

/-- C1 counterexample: on the concrete stream `Invalid-Header: 42␍␊␍␊test`
the first read fails with a framing fault; the loop writes no response at all
(the collected output is empty, so the fault was not converted to a JSON-RPC
error response) and `run_mcp_server` returns `Ok(())` rather than the fault. -/
theorem c1_counterexample :
    runServer stubParser sampleServer collectW
        (utf8Encode "Invalid-Header: 42\r\n\r\ntest") [] = ([], .ok ()) := by
  exact runServer_read_error stubParser sampleServer collectW []
    (show readMessage (utf8Encode "Invalid-Header: 42\r\n\r\ntest") =
      (.error (.apiError "Expected Content-Length header"), utf8Encode "\r\ntest") from rfl)

/-- C2 (amended): at true end of stream `read_message` returns the error
`ApiError "Expected Content-Length header"` — an error, not a distinguished
`EndOfStream` value, and the same error a malformed header produces — and the
session loop still terminates gracefully because it exits on every read
error. -/
theorem c2_eos_is_header_error :
    readMessage [] = (.error (.apiError "Expected Content-Length header"), []) ∧
    (∀ (σ : Type) (p : String → Except String Json) (srv : McpServer)
        (w : σ → JsonRpcResponse → Except YnabError σ) (st : σ),
      runServer p srv w [] st = (st, .ok ())) := by
  refine ⟨rfl, ?_⟩
  intro σ p srv w st
  exact runServer_read_error p srv w st
    (show readMessage [] = (.error (.apiError "Expected Content-Length header"), []) from rfl)

/-- C2 counterexample: the end-of-stream outcome of `read_message` is an error
(not a non-error condition), and it is the very same error value produced for
a stream whose header line is not a Content-Length header — so the two are not
distinguishable. -/
theorem c2_counterexample :
    (readMessage []).1 = .error (.apiError "Expected Content-Length header") ∧
    (readMessage (utf8Encode "Invalid-Header: 42\r\n\r\ntest")).1 =
      .error (.apiError "Expected Content-Length header") :=
  ⟨rfl, rfl⟩

/-! ## Framing round-trip (C5) -/

lemma char_valid_nat (c : Char) :
    c.toNat < 55296 ∨ (57343 < c.toNat ∧ c.toNat < 1114112) := c.valid

lemma utf8DecodeAux_encode (c : Char) (rest : List Nat) :
    ∃ b0 tl, utf8EncodeChar c = b0 :: tl ∧ utf8DecodeAux b0 (tl ++ rest) = some (c, rest) := by
  have hv := char_valid_nat c
  by_cases h1 : c.toNat < 128
  · refine ⟨c.toNat, [], ?_, ?_⟩
    · unfold utf8EncodeChar
      dsimp only []
      rw [if_pos h1]
    · unfold utf8DecodeAux
      rw [if_pos h1, Char.ofNat_toNat]
      simp
  by_cases h2 : c.toNat < 2048
  · refine ⟨192 + c.toNat / 64, [128 + c.toNat % 64], ?_, ?_⟩
    · unfold utf8EncodeChar
      dsimp only []
      rw [if_neg h1, if_pos h2]
    · unfold utf8DecodeAux
      rw [if_neg (by omega), if_neg (by omega), if_pos (by omega)]
      show (if 128 ≤ 128 + c.toNat % 64 ∧ 128 + c.toNat % 64 < 192 then _ else none) = _
      rw [if_pos (by omega)]
      dsimp only []
      have hval : (192 + c.toNat / 64 - 192) * 64 + (128 + c.toNat % 64 - 128) = c.toNat := by
        omega
      rw [hval, if_pos (by omega), Char.ofNat_toNat]
      simp
  by_cases h3 : c.toNat < 65536
  · refine ⟨224 + c.toNat / 4096, [128 + c.toNat / 64 % 64, 128 + c.toNat % 64], ?_, ?_⟩
    · unfold utf8EncodeChar
      dsimp only []
      rw [if_neg h1, if_neg h2, if_pos h3]
    · unfold utf8DecodeAux
      rw [if_neg (by omega), if_neg (by omega), if_neg (by omega), if_pos (by omega)]
      show (if (128 ≤ 128 + c.toNat / 64 % 64 ∧ 128 + c.toNat / 64 % 64 < 192) ∧
          128 ≤ 128 + c.toNat % 64 ∧ 128 + c.toNat % 64 < 192 then _ else none) = _
      rw [if_pos (by omega)]
      dsimp only []
      have hval : (224 + c.toNat / 4096 - 224) * 4096 + (128 + c.toNat / 64 % 64 - 128) * 64 +
          (128 + c.toNat % 64 - 128) = c.toNat := by
        omega
      rw [hval, if_pos (by omega), Char.ofNat_toNat]
      simp
  · refine ⟨240 + c.toNat / 262144,
      [128 + c.toNat / 4096 % 64, 128 + c.toNat / 64 % 64, 128 + c.toNat % 64], ?_, ?_⟩
    · unfold utf8EncodeChar
      dsimp only []
      rw [if_neg h1, if_neg h2, if_neg h3]
    · unfold utf8DecodeAux
      rw [if_neg (by omega), if_neg (by omega), if_neg (by omega), if_neg (by omega),
        if_pos (by omega)]
      show (if (128 ≤ 128 + c.toNat / 4096 % 64 ∧ 128 + c.toNat / 4096 % 64 < 192) ∧
          (128 ≤ 128 + c.toNat / 64 % 64 ∧ 128 + c.toNat / 64 % 64 < 192) ∧
          128 ≤ 128 + c.toNat % 64 ∧ 128 + c.toNat % 64 < 192 then _ else none) = _
      rw [if_pos (by omega)]
      dsimp only []
      have hval : (240 + c.toNat / 262144 - 240) * 262144 +
          (128 + c.toNat / 4096 % 64 - 128) * 4096 + (128 + c.toNat / 64 % 64 - 128) * 64 +
          (128 + c.toNat % 64 - 128) = c.toNat := by
        omega
      rw [hval, if_pos (by omega), Char.ofNat_toNat]
      simp

set_option maxRecDepth 8192 in
lemma utf8DecodeAux_rest_le {b0 : Nat} {bs : List Nat} {c : Char} {rest : List Nat}
    (h : utf8DecodeAux b0 bs = some (c, rest)) : rest.length ≤ bs.length := by
  unfold utf8DecodeAux at h
  repeat' split at h
  all_goals first
  | (simp only [Option.some.injEq, Prod.mk.injEq] at h
     rcases h with ⟨-, rfl⟩
     try simp only [List.length_cons]
     omega)
  | (simp at h
     try (rcases h with ⟨-, -, rfl⟩
          simp only [List.length_cons]
          omega))

lemma utf8DecodeGo_fuel (fuel fuel' : Nat) (bs : List Nat) (h : bs.length ≤ fuel)
    (h' : bs.length ≤ fuel') : utf8DecodeGo fuel bs = utf8DecodeGo fuel' bs := by
  induction fuel generalizing fuel' bs with
  | zero =>
    cases bs with
    | nil => cases fuel' <;> rfl
    | cons b0 bs => simp at h
  | succ f ih =>
    cases bs with
    | nil => cases fuel' <;> rfl
    | cons b0 bs =>
      cases fuel' with
      | zero => simp at h'
      | succ f' =>
        simp only [utf8DecodeGo]
        rcases haux : utf8DecodeAux b0 bs with _ | ⟨ch, rest⟩
        · rfl
        · have hle := utf8DecodeAux_rest_le haux
          simp only [List.length_cons] at h h'
          dsimp only []
          rw [ih f' rest (by omega) (by omega)]

lemma utf8DecodeGo_encode (cs : List Char) (rest : List Nat) (fuel : Nat)
    (h : ((cs.map utf8EncodeChar).flatten ++ rest).length ≤ fuel) :
    utf8DecodeGo fuel ((cs.map utf8EncodeChar).flatten ++ rest) =
      (utf8DecodeGo rest.length rest).map (fun tl => cs ++ tl) := by
  induction cs generalizing fuel with
  | nil =>
    simp only [List.map_nil, List.flatten_nil, List.nil_append] at h ⊢
    rw [utf8DecodeGo_fuel fuel rest.length rest h (le_refl _)]
    cases utf8DecodeGo rest.length rest <;> rfl
  | cons c cs ih =>
    obtain ⟨b0, tl, he, hdec⟩ := utf8DecodeAux_encode c ((cs.map utf8EncodeChar).flatten ++ rest)
    have hshape : (((c :: cs).map utf8EncodeChar).flatten ++ rest) =
        b0 :: (tl ++ ((cs.map utf8EncodeChar).flatten ++ rest)) := by
      simp [he, List.append_assoc]
    rw [hshape] at h ⊢
    cases fuel with
    | zero => simp at h
    | succ f =>
      simp only [utf8DecodeGo]
      rw [hdec]
      dsimp only []
      have hf : ((cs.map utf8EncodeChar).flatten ++ rest).length ≤ f := by
        simp only [List.length_cons, List.length_append] at h ⊢
        omega
      rw [ih f hf]
      cases utf8DecodeGo rest.length rest <;> rfl

lemma utf8DecodeStr_encode (s : String) : utf8DecodeStr (utf8Encode s) = some s := by
  unfold utf8DecodeStr utf8DecodeList
  have h0 := utf8DecodeGo_encode s.data [] (utf8Encode s).length
    (by rw [List.append_nil]; rfl)
  rw [List.append_nil] at h0
  unfold utf8Encode at h0 ⊢
  rw [h0]
  cases s
  simp [utf8DecodeGo]

lemma utf8EncodeChar_ascii {c : Char} (h : c.toNat < 128) : utf8EncodeChar c = [c.toNat] := by
  unfold utf8EncodeChar
  dsimp only []
  rw [if_pos h]

lemma utf8Encode_data_ascii :
    ∀ l : List Char, (∀ c ∈ l, c.toNat < 128) →
      (l.map utf8EncodeChar).flatten = l.map Char.toNat := by
  intro l hl
  induction l with
  | nil => rfl
  | cons c cs ih =>
    simp only [List.map_cons, List.flatten_cons,
      utf8EncodeChar_ascii (hl c (List.mem_cons_self c cs))]
    rw [ih (fun x hx => hl x (List.mem_cons_of_mem c hx))]
    rfl

lemma utf8Encode_ascii {s : String} (h : ∀ c ∈ s.data, c.toNat < 128) :
    utf8Encode s = s.data.map Char.toNat :=
  utf8Encode_data_ascii s.data h

lemma utf8Encode_append (s t : String) : utf8Encode (s ++ t) = utf8Encode s ++ utf8Encode t := by
  unfold utf8Encode
  rw [String.data_append, List.map_append, List.flatten_append]

lemma readLine_no_newline {l r : List Nat} (h : ∀ x ∈ l, x ≠ 10) :
    readLine (l ++ 10 :: r) = (l ++ [10], r) := by
  induction l with
  | nil => simp [readLine]
  | cons b bs ih =>
    have hb : b ≠ 10 := h b (List.mem_cons_self b bs)
    simp only [List.cons_append, readLine, if_neg hb, List.append_eq]
    rw [ih (fun x hx => h x (List.mem_cons_of_mem b hx))]

lemma isPrefixOf_append_self : ∀ l r : List Char, l.isPrefixOf (l ++ r) = true := by
  intro l r
  induction l with
  | nil => simp [List.isPrefixOf]
  | cons a as ih => simp [List.isPrefixOf, ih]

lemma charToNat_ofNat {m : Nat} (h : m.isValidChar) : (Char.ofNat m).toNat = m := by
  rw [Char.ofNat, dif_pos h]
  rfl

lemma rustIsWs_digit {c : Char} (h : 48 ≤ c.toNat ∧ c.toNat ≤ 57) : rustIsWs c = false := by
  simp only [rustIsWs, List.contains, List.elem_eq_mem, decide_eq_false_iff_not, List.mem_cons,
    List.not_mem_nil, or_false]
  omega

lemma digitsGo_acc (f : Nat) : ∀ n acc, digitsGo f n acc = digitsGo f n [] ++ acc := by
  induction f with
  | zero => intro n acc; rfl
  | succ f ih =>
    intro n acc
    simp only [digitsGo]
    try dsimp only []
    by_cases h : n < 10
    · rw [if_pos h, if_pos h]
      rfl
    · rw [if_neg h, if_neg h, ih (n / 10) (Char.ofNat (48 + n % 10) :: acc),
        ih (n / 10) [Char.ofNat (48 + n % 10)]]
      simp

lemma digitsGo_fuel : ∀ f f' n acc, n < f → n < f' → digitsGo f n acc = digitsGo f' n acc := by
  intro f
  induction f with
  | zero => intro f' n acc h; exact absurd h (Nat.not_lt_zero n)
  | succ f ih =>
    intro f' n acc h h'
    cases f' with
    | zero => exact absurd h' (Nat.not_lt_zero n)
    | succ f'' =>
      simp only [digitsGo]
      try dsimp only []
      by_cases hn : n < 10
      · rw [if_pos hn, if_pos hn]
      · rw [if_neg hn, if_neg hn]
        exact ih f'' (n / 10) _ (by omega) (by omega)

lemma natDigits_lt10 {n : Nat} (h : n < 10) : natDigits n = [Char.ofNat (48 + n)] := by
  unfold natDigits
  simp only [digitsGo]
  try dsimp only []
  rw [if_pos h, Nat.mod_eq_of_lt h]

lemma natDigits_ge10 {n : Nat} (h : 10 ≤ n) :
    natDigits n = natDigits (n / 10) ++ [Char.ofNat (48 + n % 10)] := by
  have hL : digitsGo (n + 1) n [] = digitsGo n (n / 10) [Char.ofNat (48 + n % 10)] := by
    simp only [digitsGo]
    try dsimp only []
    rw [if_neg (by omega)]
  unfold natDigits
  rw [hL, digitsGo_acc n (n / 10) [Char.ofNat (48 + n % 10)],
    digitsGo_fuel n (n / 10 + 1) (n / 10) [] (by omega) (by omega)]

lemma natDigits_digits (n : Nat) : ∀ c ∈ natDigits n, 48 ≤ c.toNat ∧ c.toNat ≤ 57 := by
  induction n using Nat.strong_induction_on with
  | _ n ih =>
    by_cases h : n < 10
    · rw [natDigits_lt10 h]
      intro c hc
      simp only [List.mem_singleton] at hc
      subst hc
      rw [charToNat_ofNat (Or.inl (by omega))]
      omega
    · rw [natDigits_ge10 (by omega)]
      intro c hc
      rcases List.mem_append.mp hc with hc | hc
      · exact ih (n / 10) (by omega) c hc
      · simp only [List.mem_singleton] at hc
        subst hc
        rw [charToNat_ofNat (Or.inl (by omega))]
        omega

lemma natDigits_nonempty (n : Nat) : natDigits n ≠ [] := by
  by_cases h : n < 10
  · rw [natDigits_lt10 h]
    simp
  · rw [natDigits_ge10 (by omega)]
    simp

lemma rustParseDigits_append (l1 l2 : List Nat) (acc : Nat) :
    rustParseDigits (l1 ++ l2) acc =
      match rustParseDigits l1 acc with
      | some a => rustParseDigits l2 a
      | none => none := by
  induction l1 generalizing acc with
  | nil => rfl
  | cons c cs ih =>
    simp only [List.cons_append, rustParseDigits, List.append_eq]
    by_cases h : 48 ≤ c ∧ c ≤ 57
    · rw [if_pos h, if_pos h, ih]
    · rw [if_neg h, if_neg h]

lemma parse_natDigits (n : Nat) :
    ∀ acc, rustParseDigits ((natDigits n).map Char.toNat) acc =
      some (acc * 10 ^ (natDigits n).length + n) := by
  induction n using Nat.strong_induction_on with
  | _ n ih =>
    intro acc
    by_cases h : n < 10
    · rw [natDigits_lt10 h]
      simp only [List.map_cons, List.map_nil, rustParseDigits]
      rw [charToNat_ofNat (Or.inl (by omega))]
      rw [if_pos (by omega)]
      simp only [List.length_cons, List.length_nil, pow_one, zero_add]
      congr 1
      omega
    · rw [natDigits_ge10 (by omega)]
      rw [List.map_append, rustParseDigits_append, ih (n / 10) (by omega) acc]
      simp only [List.map_cons, List.map_nil, rustParseDigits]
      rw [charToNat_ofNat (Or.inl (by omega))]
      rw [if_pos (by omega)]
      congr 1
      simp only [List.length_append, List.length_cons, List.length_nil]
      rw [pow_succ]
      have hdm := Nat.div_add_mod n 10
      generalize 10 ^ (natDigits (n / 10)).length = K
      have hx : 48 + n % 10 - 48 = n % 10 := by omega
      rw [hx]
      ring_nf
      omega

lemma rustParseUsize_natRepr {n : Nat} (h : n < 18446744073709551616) :
    rustParseUsize (natRepr n) = some n := by
  unfold rustParseUsize natRepr
  rcases hd : natDigits n with _ | ⟨c, cs⟩
  · exact absurd hd (natDigits_nonempty n)
  · have hc : 48 ≤ c.toNat ∧ c.toNat ≤ 57 := natDigits_digits n c (by rw [hd]; simp)
    have hplus : ¬ c = '+' := by
      intro hEq
      subst hEq
      revert hc
      decide
    dsimp only []
    rw [if_neg hplus]
    rw [if_neg (by simp)]
    rw [← hd, parse_natDigits n 0]
    dsimp only []
    rw [if_pos (by simpa using h)]
    simp

lemma string_mk_data (s : String) : String.mk s.data = s := by
  cases s
  rfl

lemma dropWhile_ws_cons_of_nonws {a : Char} {l : List Char} (h : rustIsWs a = false) :
    (a :: l).dropWhile rustIsWs = a :: l := by
  simp [List.dropWhile_cons, h]

lemma rustTrim_header (n : Nat) :
    rustTrim ("Content-Length: " ++ natRepr n ++ "\r\n") = "Content-Length: " ++ natRepr n := by
  have hdata : ("Content-Length: " ++ natRepr n ++ "\r\n").data =
      "Content-Length: ".data ++ natDigits n ++ ['\r', '\n'] := by
    rw [String.data_append, String.data_append]
    rfl
  unfold rustTrim
  rw [hdata]
  have hsh : "Content-Length: ".data ++ natDigits n ++ ['\r', '\n'] =
      'C' :: ("ontent-Length: ".data ++ natDigits n ++ ['\r', '\n']) := by
    rfl
  rw [hsh, dropWhile_ws_cons_of_nonws (by decide), ← hsh]
  have h2 : ("Content-Length: ".data ++ natDigits n ++ ['\r', '\n']).reverse =
      '\n' :: '\r' :: ((natDigits n).reverse ++ ("Content-Length: ".data).reverse) := by
    simp [List.reverse_append]
  rw [h2]
  rcases hrev : (natDigits n).reverse with _ | ⟨d, ds⟩
  · exact absurd (List.reverse_eq_nil_iff.mp hrev) (natDigits_nonempty n)
  · have hd : 48 ≤ d.toNat ∧ d.toNat ≤ 57 :=
      natDigits_digits n d (by rw [← List.mem_reverse, hrev]; simp)
    have h3 : ('\n' :: '\r' :: ((d :: ds) ++ ("Content-Length: ".data).reverse)).dropWhile
        rustIsWs = (d :: ds) ++ ("Content-Length: ".data).reverse := by
      rw [show ('\n' :: '\r' :: ((d :: ds) ++ ("Content-Length: ".data).reverse)).dropWhile
          rustIsWs =
          (d :: (ds ++ ("Content-Length: ".data).reverse)).dropWhile rustIsWs from rfl,
        dropWhile_ws_cons_of_nonws (rustIsWs_digit hd)]
      rfl
    rw [h3]
    have h4 : ((d :: ds) ++ ("Content-Length: ".data).reverse).reverse =
        "Content-Length: ".data ++ natDigits n := by
      rw [List.reverse_append, List.reverse_reverse, ← hrev, List.reverse_reverse]
    rw [h4]
    rw [show "Content-Length: ".data ++ natDigits n = ("Content-Length: " ++ natRepr n).data
        from by rw [String.data_append]; rfl]

lemma stripContentLength_trimmed (n : Nat) :
    stripContentLength ("Content-Length: " ++ natRepr n) = some ⟨' ' :: natDigits n⟩ := by
  unfold stripContentLength rustStartsWith
  have hdata : ("Content-Length: " ++ natRepr n).data =
      "Content-Length:".data ++ (' ' :: natDigits n) := by
    rw [String.data_append,
      show "Content-Length: ".data = "Content-Length:".data ++ [' '] from rfl,
      List.append_assoc]
    rfl
  rw [hdata, if_pos (isPrefixOf_append_self _ _)]
  rw [show (15 : Nat) = ("Content-Length:".data).length from rfl, List.drop_left]

lemma rustTrim_space_digits (n : Nat) : rustTrim ⟨' ' :: natDigits n⟩ = natRepr n := by
  unfold rustTrim
  show String.mk (((((' ' :: natDigits n).dropWhile rustIsWs).reverse).dropWhile
    rustIsWs).reverse) = _
  rw [show (' ' :: natDigits n).dropWhile rustIsWs = (natDigits n).dropWhile rustIsWs from by
    simp only [List.dropWhile_cons]
    rw [if_pos (by decide)]]
  rcases hD : natDigits n with _ | ⟨d, ds⟩
  · exact absurd hD (natDigits_nonempty n)
  · have hd : 48 ≤ d.toNat ∧ d.toNat ≤ 57 := natDigits_digits n d (by rw [hD]; simp)
    rw [dropWhile_ws_cons_of_nonws (rustIsWs_digit hd), ← hD]
    rcases hrev : (natDigits n).reverse with _ | ⟨e, es⟩
    · exact absurd (List.reverse_eq_nil_iff.mp hrev) (natDigits_nonempty n)
    · have he : 48 ≤ e.toNat ∧ e.toNat ≤ 57 :=
        natDigits_digits n e (by rw [← List.mem_reverse, hrev]; simp)
      rw [dropWhile_ws_cons_of_nonws (rustIsWs_digit he)]
      have hback : (e :: es).reverse = natDigits n := by
        rw [← hrev, List.reverse_reverse]
      rw [hback]
      rfl

lemma header_data_ascii (L : Nat) :
    ∀ c ∈ ("Content-Length: " ++ natRepr L).data, c.toNat < 128 := by
  intro c hc
  rw [String.data_append] at hc
  rcases List.mem_append.mp hc with hc | hc
  · exact (show ∀ c' ∈ "Content-Length: ".data, Char.toNat c' < 128 from by decide) c hc
  · have := natDigits_digits L c hc
    omega

lemma header_bytes_no_newline (L : Nat) :
    ∀ x ∈ utf8Encode ("Content-Length: " ++ natRepr L) ++ [13], x ≠ 10 := by
  intro x hx
  rcases List.mem_append.mp hx with hx | hx
  · rw [utf8Encode_ascii (header_data_ascii L)] at hx
    rcases List.mem_map.mp hx with ⟨c, hc, rfl⟩
    rw [String.data_append] at hc
    rcases List.mem_append.mp hc with hc | hc
    · exact (show ∀ c' ∈ "Content-Length: ".data, Char.toNat c' ≠ 10 from by decide) c hc
    · have := natDigits_digits L c hc
      omega
  · simp only [List.mem_singleton] at hx
    omega

/-- C5: framing round-trip.  For every message whose byte length fits in
`usize`, writing it with `write_message` and reading the produced bytes with
`read_message` yields exactly the message (and consumes the whole stream),
because the declared `Content-Length` is the UTF-8 byte length of the body —
multi-byte characters included. -/
theorem c5_framing_roundtrip (m : String) (h : (utf8Encode m).length < 18446744073709551616) :
    readMessage (writeMessage m) = (.ok m, []) := by
  have hbytes : writeMessage m =
      (utf8Encode ("Content-Length: " ++ natRepr (utf8Encode m).length) ++ [13]) ++
        10 :: (13 :: 10 :: utf8Encode m) := by
    unfold writeMessage
    rw [show ("Content-Length: " ++ natRepr (utf8Encode m).length ++ "\r\n\r\n" ++ m : String) =
        (("Content-Length: " ++ natRepr (utf8Encode m).length) ++ "\r\n\r\n") ++ m from rfl]
    rw [utf8Encode_append, utf8Encode_append]
    rw [show utf8Encode "\r\n\r\n" = [13, 10, 13, 10] from rfl]
    simp [List.append_assoc]
  have hline1 : readLine (writeMessage m) =
      ((utf8Encode ("Content-Length: " ++ natRepr (utf8Encode m).length) ++ [13]) ++ [10],
        13 :: 10 :: utf8Encode m) := by
    rw [hbytes, readLine_no_newline (header_bytes_no_newline (utf8Encode m).length)]
  have hlinestr : (utf8Encode ("Content-Length: " ++ natRepr (utf8Encode m).length) ++ [13]) ++
      [10] = utf8Encode ("Content-Length: " ++ natRepr (utf8Encode m).length ++ "\r\n") := by
    conv_rhs => rw [utf8Encode_append]
    rw [show utf8Encode "\r\n" = [13, 10] from rfl]
    simp [List.append_assoc]
  have hdec1 : utf8DecodeStr ((utf8Encode ("Content-Length: " ++
      natRepr (utf8Encode m).length) ++ [13]) ++ [10]) =
      some ("Content-Length: " ++ natRepr (utf8Encode m).length ++ "\r\n") := by
    rw [hlinestr, utf8DecodeStr_encode]
  have hsw : rustStartsWith ("Content-Length: " ++ natRepr (utf8Encode m).length ++ "\r\n")
      "Content-Length:" = true := by
    unfold rustStartsWith
    rw [show ("Content-Length: " ++ natRepr (utf8Encode m).length ++ "\r\n").data =
        "Content-Length:".data ++ ((' ' :: natDigits (utf8Encode m).length) ++ ['\r', '\n'])
        from by
      rw [String.data_append, String.data_append,
        show "Content-Length: ".data = "Content-Length:".data ++ [' '] from rfl,
        List.append_assoc, List.append_assoc]
      rfl]
    exact isPrefixOf_append_self _ _
  have hline2 : readLine (13 :: 10 :: utf8Encode m) = ([13, 10], utf8Encode m) := by
    have := readLine_no_newline (l := [13]) (r := utf8Encode m) (by decide)
    simpa using this
  unfold readMessage
  dsimp only []
  rw [hline1]
  dsimp only []
  rw [hdec1]
  dsimp only []
  rw [if_neg (by simp [hsw])]
  rw [rustTrim_header, stripContentLength_trimmed]
  dsimp only []
  rw [rustTrim_space_digits, rustParseUsize_natRepr h]
  dsimp only []
  rw [hline2]
  dsimp only []
  rw [show utf8DecodeStr [13, 10] = some "\r\n" from rfl]
  rw [if_neg (lt_irrefl _)]
  rw [List.take_length, utf8DecodeStr_encode, List.drop_length]

theorem c5_witness :
    (utf8Encode "hé€😀").length < 18446744073709551616 ∧
      readMessage (writeMessage "hé€😀") = (.ok "hé€😀", []) :=
  ⟨by decide, c5_framing_roundtrip "hé€😀" (by decide)⟩
